import Mathlib

/-!
Verification of the BackbookingRecords processing engine (`src/processing.py`)
against its natural-language specification.

Python strings are embedded as `List Char` (`Str`), Python floats carrying
currency amounts as `ℚ`, pandas frames as explicit header/row structures, and
in-place column assignment as explicit state passing: each frame operation
returns `(result, state of the caller's frame after the call)`.
-/

set_option maxRecDepth 4096

unseal Rat.add Rat.sub Rat.mul Rat.inv Rat.ofScientific

/-- Embedded Python string: a list of characters. -/
abbrev Str := List Char

/-- Split a character list at every character satisfying `p` (separators are
dropped; empty segments between consecutive separators are kept). -/
def splitOnP (p : Char → Bool) : Str → List Str
  | [] => [[]]
  | c :: cs =>
    match splitOnP p cs with
    | [] => [[]]
    | s :: ss => if p c then [] :: s :: ss else (c :: s) :: ss

/-- `str.strip()`: drop leading and trailing whitespace. -/
def pyStrip (s : Str) : Str :=
  ((s.dropWhile Char.isWhitespace).reverse.dropWhile Char.isWhitespace).reverse

/-- `str.lower()` (ASCII case folding, which covers every label in the data). -/
def pyLower (s : Str) : Str := s.map Char.toLower

/-- Decimal digits of a natural number, most significant first (fuel-indexed so
that the recursion is structural; `n + 1` units of fuel always suffice). -/
def natDigitsAux : Nat → Nat → Str
  | 0, _ => []
  | fuel + 1, n =>
    if n < 10 then [Nat.digitChar n]
    else natDigitsAux fuel (n / 10) ++ [Nat.digitChar (n % 10)]

/-- Decimal digits of a natural number, most significant first. -/
def natDigits (n : Nat) : Str := natDigitsAux (n + 1) n

/-- Rendering of an integer, as Python `str` would print it. -/
def intDigits (i : Int) : Str :=
  if i < 0 then '-' :: natDigits i.natAbs else natDigits i.toNat

/-- Group a character list into runs of three (used on reversed digit lists to
place thousands separators). -/
def chunk3 : Str → List Str
  | [] => []
  | [a] => [[a]]
  | [a, b] => [[a, b]]
  | a :: b :: c :: r => [a, b, c] :: chunk3 r

/-- Thousands-separated decimal rendering of a natural number, as produced by
Python format specifier `,`. -/
def commaSep (n : Nat) : Str :=
  (List.intercalate [','] (chunk3 (natDigits n).reverse)).reverse

/-- Two-digit zero-padded rendering (for a cents field `0 ≤ n < 100`). -/
def pad2 (n : Nat) : Str :=
  if n < 10 then '0' :: natDigits n else natDigits n

/-- Python `abs` on a rational amount. -/
def qabs (q : ℚ) : ℚ := if q < 0 then -q else q

/-- Round half to even (the rounding used by Python `round` and by float
formatting), on exact rationals. -/
def rhe (q : ℚ) : Int :=
  let f := q.floor
  let r := q - f
  if r < 1 / 2 then f
  else if 1 / 2 < r then f + 1
  else if f % 2 = 0 then f else f + 1

/-- `f"{a:,.2f}"` for a nonnegative rational: exactly two decimal places with a
thousands-separated integer part. -/
def fixed2 (a : ℚ) : Str :=
  let n := (rhe (a * 100)).toNat
  commaSep (n / 100) ++ '.' :: pad2 (n % 100)

/-- `format_usd` from `src/processing.py`: US currency, cents shown only when
`abs(value) < 1`; negative amounts carry a leading minus sign. -/
def format_usd (amount : ℚ) : Str :=
  let sign : Str := if amount < 0 then ['-'] else []
  let aAbs := qabs amount
  let core : Str :=
    if aAbs = 0 then ['0']
    else if aAbs < 1 then fixed2 aAbs
    else commaSep (rhe aAbs).toNat
  sign ++ '$' :: core

/-- C2 (counterexample): the spec claims `format_usd 1234.5 = "$1,235"`
("rounded to the nearest integer"), but Python `round` rounds half to even, so
the code renders `1234.5` as `"$1,234"`. -/
theorem c2_format_usd_counterexample :
    format_usd (2469 / 2) = "$1,234".data ∧ format_usd (2469 / 2) ≠ "$1,235".data :=
  ⟨by decide, by decide⟩

/-- C2 (amended): `format_usd` renders zero as `"$0"`, amounts of absolute
value below one with exactly two decimals (`0.4 ↦ "$0.40"`), amounts of
absolute value at least one as a thousands-separated integer rounded half to
even (`1234.5 ↦ "$1,234"`), and negative amounts with a minus sign placed
before the dollar sign. -/
theorem c2_format_usd_amended :
    format_usd 0 = "$0".data ∧
    format_usd (2 / 5) = "$0.40".data ∧
    format_usd (2469 / 2) = "$1,234".data ∧
    format_usd (-5) = "-$5".data ∧
    (∀ q : ℚ, q < 0 → format_usd q = '-' :: format_usd (-q)) := by
  refine ⟨by decide, by decide, by decide, by decide, fun q hq => ?_⟩
  have h2 : ¬ -q < 0 := not_lt.mpr (neg_nonneg.mpr hq.le)
  have e1 : qabs q = -q := if_pos hq
  have e2 : qabs (-q) = -q := if_neg h2
  simp only [format_usd, e1, e2, if_pos hq, if_neg h2]
  rfl

/-- C2 witness: the minus-sign clause of `c2_format_usd_amended` evaluated at
the concrete amount `-5`. -/
theorem c2_format_usd_witness :
    (-5 : ℚ) < 0 ∧ format_usd (-5) = '-' :: format_usd (-(-5)) :=
  ⟨by norm_num, c2_format_usd_amended.2.2.2.2 (-5) (by norm_num)⟩

/-! ### Calendar model

`pd.Timestamp` dates are embedded as civil calendar dates; `pd.NaT` (the
invalid/missing sentinel produced by `errors="coerce"`) is `none`. -/

/-- A civil calendar date (year, month, day). -/
structure CivDate where
  y : Int
  m : Nat
  d : Nat
deriving DecidableEq, Repr

/-- Gregorian leap-year test. -/
def isLeap (y : Int) : Bool := y % 4 = 0 && (y % 100 != 0 || y % 400 = 0)

/-- Number of days in a civil month (`pandas .dt.days_in_month`). -/
def daysInMonth (y : Int) (m : Nat) : Nat :=
  if m = 2 then (if isLeap y then 29 else 28)
  else if m = 4 || m = 6 || m = 9 || m = 11 then 30
  else 31

/-- Days since 1970-01-01 of a civil date (Hinnant's `days_from_civil`
algorithm), used to take differences of `pd.Timestamp` values in days. -/
def daysFromCivil (dt : CivDate) : Int :=
  let y : Int := dt.y - (if dt.m ≤ 2 then 1 else 0)
  let era : Int := Int.fdiv y 400
  let yoe : Int := y - era * 400
  let mp : Int := (dt.m : Int) + (if dt.m > 2 then -3 else 9)
  let doy : Int := (153 * mp + 2) / 5 + (dt.d : Int) - 1
  let doe : Int := yoe * 365 + yoe / 4 - yoe / 100 + doy
  era * 146097 + doe - 719468

/-- `week_index_relative` from `src/processing.py`:
`(d.normalize() - start.normalize()).days // 7 + 1` (dates carry no time
component in this model, so normalization to midnight is the identity). -/
def week_index_relative (d start : CivDate) : Int :=
  Int.fdiv (daysFromCivil d - daysFromCivil start) 7 + 1

/-- Per-row four-per-month bucket computed by `add_four_week_in_month`:
`(((day - 1) * 4) // dim + 1).fillna(1).clip(lower=1, upper=4)`. A `NaT` date
propagates `NaN` through the arithmetic and is restored to `1` by `fillna`. -/
def fourWeekBucket : Option CivDate → Nat
  | none => 1
  | some dt => min 4 (max 1 ((dt.d - 1) * 4 / daysInMonth dt.y dt.m + 1))

/-- C1 (counterexample): in the 30-day month April 2024, day 15 falls in
bucket `W2`, not `W3` as the claim states: `floor(14*4/30) + 1 = 1 + 1 = 2`. -/
theorem c1_four_week_counterexample :
    daysInMonth 2024 4 = 30 ∧
    fourWeekBucket (some ⟨2024, 4, 15⟩) = 2 ∧
    fourWeekBucket (some ⟨2024, 4, 15⟩) ≠ 3 := by
  refine ⟨by decide, by decide, by decide⟩

/-- C1 (amended): for every valid date the bucket is
`clamp(floor((day - 1) * 4 / days_in_month) + 1, 1, 4)` (with a real rational
floor), the invalid/missing date sentinel gets bucket 1, and in a 30-day month
day 1 is `W1`, day 30 is `W4`, and day 15 is `W2`. -/
theorem c1_four_week_amended :
    (∀ dt : CivDate, 1 ≤ dt.d →
      fourWeekBucket (some dt) =
        min 4 (max 1 (⌊((dt.d : ℚ) - 1) * 4 / (daysInMonth dt.y dt.m : ℚ)⌋ + 1).toNat)) ∧
    fourWeekBucket none = 1 ∧
    daysInMonth 2024 4 = 30 ∧
    fourWeekBucket (some ⟨2024, 4, 1⟩) = 1 ∧
    fourWeekBucket (some ⟨2024, 4, 30⟩) = 4 ∧
    fourWeekBucket (some ⟨2024, 4, 15⟩) = 2 := by
  refine ⟨fun dt hd => ?_, by decide, by decide, by decide, by decide, by decide⟩
  have hcast : ((dt.d : ℚ) - 1) * 4 = (((dt.d - 1) * 4 : ℕ) : ℚ) := by
    push_cast [Nat.cast_sub hd]
    ring
  rw [hcast, Rat.floor_natCast_div_natCast, ← Int.natCast_div]
  simp only [fourWeekBucket]
  omega

/-- C1 witness: the amended bucket formula evaluated at 2024-04-15. -/
theorem c1_four_week_witness :
    1 ≤ (15 : Nat) ∧
    fourWeekBucket (some ⟨2024, 4, 15⟩) =
      min 4 (max 1 (⌊(((15 : Nat) : ℚ) - 1) * 4 / (daysInMonth 2024 4 : ℚ)⌋ + 1).toNat) :=
  ⟨by decide, c1_four_week_amended.1 ⟨2024, 4, 15⟩ (by decide)⟩

/-! ### Channel classification -/

/-- The PMP keyword list of `classify_channel`, in its declared order. -/
def pmpTokens : List Str :=
  ["pmp".data, "private".data, "preferred".data, "deal".data,
   "programmatic guaranteed".data, "pg".data]

/-- The OE keyword list of `classify_channel`, in its declared order. -/
def oeTokens : List Str :=
  ["oe".data, "open exchange".data, "open".data, "open auction".data]

/-- `classify_channel` from `src/processing.py`: `None`/empty is unclassified;
a PMP keyword occurring as a substring wins over any OE keyword. -/
def classify_channel : Option Str → Option Str
  | none => none
  | some s =>
    let v := pyLower (pyStrip s)
    if v = [] then none
    else if pmpTokens.any (fun t => decide (t <:+: v)) then some "PMP".data
    else if oeTokens.any (fun t => decide (t <:+: v)) then some "OE".data
    else none

/-- A keyword of `toks` occurs as a contiguous substring of `w`. -/
def HasTok (toks : List Str) (w : Str) : Prop := ∃ t ∈ toks, t <:+: w

/-- C6 (confirmed): `classify_channel` is total and deterministic (it is a
function); after trimming and lower-casing, an empty label is unclassified, a
label containing a PMP keyword is PMP regardless of OE keywords, a label
containing an OE keyword but no PMP keyword is OE, a label containing neither
is unclassified, and the concrete examples of the claim hold. -/
theorem c6_classify_channel_spec :
    classify_channel none = none ∧
    (∀ s : Str, pyLower (pyStrip s) = [] → classify_channel (some s) = none) ∧
    (∀ s : Str, HasTok pmpTokens (pyLower (pyStrip s)) →
      classify_channel (some s) = some "PMP".data) ∧
    (∀ s : Str, ¬HasTok pmpTokens (pyLower (pyStrip s)) →
      HasTok oeTokens (pyLower (pyStrip s)) →
      classify_channel (some s) = some "OE".data) ∧
    (∀ s : Str, ¬HasTok pmpTokens (pyLower (pyStrip s)) →
      ¬HasTok oeTokens (pyLower (pyStrip s)) →
      classify_channel (some s) = none) ∧
    classify_channel (some "Private Marketplace".data) = some "PMP".data ∧
    classify_channel (some "Open Exchange".data) = some "OE".data ∧
    classify_channel (some "Video".data) = none ∧
    classify_channel (some "".data) = none ∧
    classify_channel (some "open pmp deal".data) = some "PMP".data := by
  have hany : ∀ (toks : List Str) (w : Str),
      (toks.any fun t => decide (t <:+: w)) = true ↔ HasTok toks w := by
    intro toks w
    simp [List.any_eq_true, HasTok]
  refine ⟨rfl, ?_, ?_, ?_, ?_, by decide, by decide, by decide, by decide, by decide⟩
  · intro s h
    simp [classify_channel, h]
  · intro s h
    have hne : pyLower (pyStrip s) ≠ [] := by
      rcases h with ⟨t, ht, hsub⟩
      intro he
      rw [he] at hsub
      have : t = [] := List.eq_nil_of_infix_nil hsub
      subst this
      revert ht
      decide
    simp [classify_channel, hne, (hany pmpTokens _).mpr h]
  · intro s hp ho
    have hne : pyLower (pyStrip s) ≠ [] := by
      rcases ho with ⟨t, ht, hsub⟩
      intro he
      rw [he] at hsub
      have : t = [] := List.eq_nil_of_infix_nil hsub
      subst this
      revert ht
      decide
    have hp' : (pmpTokens.any fun t => decide (t <:+: pyLower (pyStrip s))) = false := by
      rw [← Bool.not_eq_true]
      exact fun hc => hp ((hany pmpTokens _).mp hc)
    simp [classify_channel, hne, hp', (hany oeTokens _).mpr ho]
  · intro s hp ho
    have hp' : (pmpTokens.any fun t => decide (t <:+: pyLower (pyStrip s))) = false := by
      rw [← Bool.not_eq_true]
      exact fun hc => hp ((hany pmpTokens _).mp hc)
    have ho' : (oeTokens.any fun t => decide (t <:+: pyLower (pyStrip s))) = false := by
      rw [← Bool.not_eq_true]
      exact fun hc => ho ((hany oeTokens _).mp hc)
    by_cases hne : pyLower (pyStrip s) = [] <;> simp [classify_channel, hne, hp', ho']

/-- C6 witness: the PMP-priority clause evaluated on the concrete label
`"open pmp deal"`, which contains both OE and PMP keywords. -/
theorem c6_classify_channel_witness :
    HasTok pmpTokens (pyLower (pyStrip "open pmp deal".data)) ∧
    classify_channel (some "open pmp deal".data) = some "PMP".data := by
  have h : HasTok pmpTokens (pyLower (pyStrip "open pmp deal".data)) := by
    refine ⟨"pmp".data, by decide, ?_⟩
    decide
  exact ⟨h, c6_classify_channel_spec.2.2.1 _ h⟩

/-! ### Revenue coercion -/

/-- The character filter of the revenue regex `[^0-9.\-]`: keep digits, the
decimal point, and the minus sign. -/
def revKeep (c : Char) : Bool := c.isDigit || c == '.' || c == '-'

/-- `str.replace(r"[^0-9.\-]", "")` applied to a raw revenue cell. -/
def stripRev (s : Str) : Str := s.filter revKeep

/-- Value of a digit string (most significant first). -/
def digitsVal (s : Str) : Nat := s.foldl (fun a c => a * 10 + (c.toNat - '0'.toNat)) 0

/-- The decimal grammar accepted by `pd.to_numeric` on a string drawn from the
alphabet `[0-9.\-]`: an optional leading minus sign, then digits with at most
one decimal point and at least one digit; anything else is `NaN` (`none`). -/
def parseDec (s : Str) : Option ℚ :=
  let signed : Bool × Str := match s with
    | '-' :: r => (true, r)
    | r => (false, r)
  let neg := signed.1
  let rest := signed.2
  if rest.any (· == '-') then none
  else
    match splitOnP (· == '.') rest with
    | [ip] =>
      if !ip.isEmpty && ip.all (·.isDigit) then
        some (if neg then -(digitsVal ip : ℚ) else (digitsVal ip : ℚ))
      else none
    | [ip, fp] =>
      if !(ip ++ fp).isEmpty && ip.all (·.isDigit) && fp.all (·.isDigit) then
        let v : ℚ := (digitsVal ip : ℚ) + (digitsVal fp : ℚ) / ((10 : ℚ) ^ fp.length)
        some (if neg then -v else v)
      else none
    | _ => none

/-- Revenue coercion from `read_and_normalize`: strip every character that is
not a digit, a point, or a minus sign, parse the remainder as a decimal
(`pd.to_numeric(errors="coerce")`), and replace a failed parse by `0.0`
(`fillna(0.0)`). -/
def coerceRevenue (s : Str) : ℚ := (parseDec (stripRev s)).getD 0

/-- C7 (confirmed): revenue coercion keeps only `[0-9.\-]`, parses the
remainder as a decimal, never raises (it is a total function), and maps an
unparseable remainder to `0.0`; `"$1,234.56" ↦ 1234.56`, `"-42" ↦ -42`,
non-numeric text `↦ 0`, `"(500)" ↦ 500` (parentheses stripped, no sign
inversion), and the empty string `↦ 0`. -/
theorem c7_coerce_revenue_spec :
    coerceRevenue "$1,234.56".data = 123456 / 100 ∧
    coerceRevenue "-42".data = -42 ∧
    coerceRevenue "abc".data = 0 ∧
    coerceRevenue "(500)".data = 500 ∧
    coerceRevenue "".data = 0 ∧
    (∀ s : Str, parseDec (stripRev s) = none → coerceRevenue s = 0) ∧
    (∀ s : Str, ∀ c ∈ stripRev s, revKeep c = true) := by
  refine ⟨by decide, by decide, by decide, by decide, by decide, ?_, ?_⟩
  · intro s h
    simp [coerceRevenue, h]
  · intro s c hc
    exact (List.mem_filter.mp hc).2

/-- C7 witness: the unparseable-remainder clause of `c7_coerce_revenue_spec`
evaluated on the concrete cell `"N/A"`. -/
theorem c7_coerce_revenue_witness :
    parseDec (stripRev "N/A".data) = none ∧ coerceRevenue "N/A".data = 0 :=
  ⟨by decide, c7_coerce_revenue_spec.2.2.2.2.2.1 "N/A".data (by decide)⟩

/-! ### TSV export and round trip -/

/-- `sep.join(parts)` for a string separator. -/
def joinSepStr (sep : Str) : List Str → Str
  | [] => []
  | [w] => w
  | w :: ws => w ++ sep ++ joinSepStr sep ws

/-- The buffer written by `df_to_tsv`: each line is followed by `"\n"`. -/
def joinLines : List Str → Str
  | [] => []
  | l :: ls => l ++ '\n' :: joinLines ls

/-- A `SummaryTable` as seen by the export serializer: header strings and rows
of cells, where `none` is a missing value (`pd.isna`) and `some s` is a value
whose string rendering `str(v)` is `s`. -/
structure TsvTable where
  header : List Str
  cells : List (List (Option Str))
deriving DecidableEq

/-- `"" if pd.isna(v) else str(v)` for one cell. -/
def displayCell : Option Str → Str
  | none => []
  | some s => s

/-- `df_to_tsv` from `src/processing.py`: tab-joined header, then one
tab-joined line per row, each line terminated by a newline. -/
def df_to_tsv (t : TsvTable) : Str :=
  joinLines (joinSepStr ['\t'] t.header ::
    t.cells.map (fun r => joinSepStr ['\t'] (r.map displayCell)))

/-- `str.splitlines`-style splitting: split at every newline and drop the
final empty segment produced by a trailing newline. -/
def splitLines (s : Str) : List Str :=
  let p := splitOnP (· == '\n') s
  if p.getLast? = some [] then p.dropLast else p

/-- The re-parsing direction of the round-trip property: split the serialized
text into lines and each line on tab characters. -/
def parse_tsv (s : Str) : List (List Str) :=
  (splitLines s).map (splitOnP (· == '\t'))

theorem splitOnP_ne_nil (p : Char → Bool) : ∀ l : Str, splitOnP p l ≠ []
  | [] => by simp [splitOnP]
  | c :: cs => by
    have h := splitOnP_ne_nil p cs
    cases hs : splitOnP p cs with
    | nil => exact absurd hs h
    | cons x xs => by_cases hc : p c <;> simp [splitOnP, hs, hc]

theorem splitOnP_all_false (p : Char → Bool) :
    ∀ l : Str, (∀ a ∈ l, p a = false) → splitOnP p l = [l]
  | [], _ => rfl
  | a :: l, h => by
    have ih := splitOnP_all_false p l fun x hx => h x (List.mem_cons_of_mem a hx)
    simp [splitOnP, ih, h a (List.mem_cons_self a l)]

theorem splitOnP_append_sep (p : Char → Bool) (c : Char) (hc : p c = true) :
    ∀ (l s : Str), (∀ a ∈ l, p a = false) →
      splitOnP p (l ++ c :: s) = l :: splitOnP p s
  | [], s, _ => by
    cases hs : splitOnP p s with
    | nil => exact absurd hs (splitOnP_ne_nil p s)
    | cons x xs => simp [splitOnP, hs, hc]
  | a :: l, s, h => by
    have ih := splitOnP_append_sep p c hc l s fun x hx => h x (List.mem_cons_of_mem a hx)
    cases hs : splitOnP p (l ++ c :: s) with
    | nil => exact absurd hs (splitOnP_ne_nil p _)
    | cons x xs =>
      rw [hs] at ih
      cases ih
      simp [splitOnP, hs, h a (List.mem_cons_self a l)]

theorem splitOnP_joinLines (p : Char → Bool) (hc : p '\n' = true) :
    ∀ L : List Str, (∀ l ∈ L, ∀ a ∈ l, p a = false) →
      splitOnP p (joinLines L) = L ++ [[]]
  | [], _ => rfl
  | l :: L, h => by
    have ih := splitOnP_joinLines p hc L fun x hx => h x (List.mem_cons_of_mem l hx)
    have happ := splitOnP_append_sep p '\n' hc l (joinLines L)
      (h l (List.mem_cons_self l L))
    simpa [joinLines, ih] using happ

theorem splitOnP_joinSepStr (p : Char → Bool) (c : Char) (hc : p c = true) :
    ∀ cells : List Str, cells ≠ [] → (∀ w ∈ cells, ∀ a ∈ w, p a = false) →
      splitOnP p (joinSepStr [c] cells) = cells
  | [], hne, _ => absurd rfl hne
  | [w], _, h => by
    simpa [joinSepStr] using splitOnP_all_false p w (h w (List.mem_cons_self w []))
  | w :: w' :: cells, _, h => by
    have ih := splitOnP_joinSepStr p c hc (w' :: cells) (by simp)
      fun x hx => h x (List.mem_cons_of_mem w hx)
    have happ := splitOnP_append_sep p c hc w (joinSepStr [c] (w' :: cells))
      (h w (List.mem_cons_self w _))
    calc splitOnP p (joinSepStr [c] (w :: w' :: cells))
        = splitOnP p (w ++ c :: joinSepStr [c] (w' :: cells)) := by
          simp [joinSepStr]
      _ = w :: splitOnP p (joinSepStr [c] (w' :: cells)) := happ
      _ = w :: w' :: cells := by rw [ih]

/-- C3 (counterexample): a cell value containing a tab character breaks the
round trip: the single cell `"a\tb"` re-parses as two cells. -/
theorem c3_tsv_roundtrip_counterexample :
    parse_tsv (df_to_tsv ⟨["A".data], [[some "a\tb".data]]⟩) ≠
      ["A".data] :: [[some "a\tb".data]].map (fun r => r.map displayCell) ∧
    parse_tsv (df_to_tsv ⟨["A".data], [[some "a\tb".data]]⟩) =
      [["A".data], ["a".data, "b".data]] := by
  refine ⟨by decide, by decide⟩

theorem mem_joinSepStr :
    ∀ (sep : Str) (ws : List Str) (a : Char),
      a ∈ joinSepStr sep ws → a ∈ sep ∨ ∃ w ∈ ws, a ∈ w
  | _, [], a, h => by simp [joinSepStr] at h
  | sep, [w], a, h => by
    right
    exact ⟨w, by simp, by simpa [joinSepStr] using h⟩
  | sep, w :: w' :: ws, a, h => by
    simp only [joinSepStr, List.append_assoc, List.mem_append] at h
    rcases h with h | h | h
    · right; exact ⟨w, by simp, h⟩
    · left; exact h
    · rcases mem_joinSepStr sep (w' :: ws) a h with h | ⟨u, hu, ha⟩
      · left; exact h
      · right; exact ⟨u, List.mem_cons_of_mem w hu, ha⟩

/-- C3 (amended): re-parsing the output of `df_to_tsv` with the same delimiter
reproduces the original header and cell strings exactly (missing cells render
as the empty string), provided the table has at least one column, every row
has at least one cell, and no header or rendered cell string contains a tab or
newline character. Without that proviso the round trip fails
(`c3_tsv_roundtrip_counterexample`). -/
theorem c3_tsv_roundtrip_amended (t : TsvTable)
    (hh : t.header ≠ [])
    (hr : ∀ r ∈ t.cells, r ≠ [])
    (hhc : ∀ w ∈ t.header, ∀ a ∈ w, a ≠ '\t' ∧ a ≠ '\n')
    (hrc : ∀ r ∈ t.cells, ∀ x ∈ r, ∀ a ∈ displayCell x, a ≠ '\t' ∧ a ≠ '\n') :
    parse_tsv (df_to_tsv t) = t.header :: t.cells.map (fun r => r.map displayCell) := by
  have hline : ∀ l ∈ (joinSepStr ['\t'] t.header ::
      t.cells.map (fun r => joinSepStr ['\t'] (r.map displayCell))),
      ∀ a ∈ l, (a == '\n') = false := by
    intro l hl a ha
    rw [beq_eq_false_iff_ne]
    rcases List.mem_cons.mp hl with rfl | hl
    · rcases mem_joinSepStr _ _ _ ha with h | ⟨w, hw, haw⟩
      · simp only [List.mem_singleton] at h
        subst h; decide
      · exact (hhc w hw a haw).2
    · rcases List.mem_map.mp hl with ⟨r, hrm, rfl⟩
      rcases mem_joinSepStr _ _ _ ha with h | ⟨w, hw, haw⟩
      · simp only [List.mem_singleton] at h
        subst h; decide
      · rcases List.mem_map.mp hw with ⟨x, hx, rfl⟩
        exact (hrc r hrm x hx a haw).2
  have hsplit := splitOnP_joinLines (· == '\n') (by decide) _ hline
  have hsl : splitLines (df_to_tsv t) = joinSepStr ['\t'] t.header ::
      t.cells.map (fun r => joinSepStr ['\t'] (r.map displayCell)) := by
    simp only [splitLines, df_to_tsv]
    rw [hsplit, List.getLast?_concat, if_pos rfl, List.dropLast_concat]
  unfold parse_tsv
  rw [hsl]
  simp only [List.map_cons, List.map_map]
  congr 1
  · exact splitOnP_joinSepStr _ '\t' (by decide) t.header hh
      fun w hw a ha => by
        rw [beq_eq_false_iff_ne]
        exact (hhc w hw a ha).1
  · apply List.map_congr_left
    intro r hrm
    have hne : r.map displayCell ≠ [] := by
      intro h
      exact hr r hrm (List.map_eq_nil_iff.mp h)
    exact splitOnP_joinSepStr _ '\t' (by decide) (r.map displayCell) hne
      fun w hw a ha => by
        rcases List.mem_map.mp hw with ⟨x, hx, rfl⟩
        rw [beq_eq_false_iff_ne]
        exact (hrc r hrm x hx a ha).1

/-- C3 witness: the round trip evaluated on a concrete two-column table with
one present and one missing cell. -/
theorem c3_tsv_roundtrip_witness :
    parse_tsv (df_to_tsv ⟨["A".data, "B".data], [[some "x".data, none]]⟩) =
      ["A".data, "B".data] :: [[some "x".data, none]].map (fun r => r.map displayCell) :=
  c3_tsv_roundtrip_amended ⟨["A".data, "B".data], [[some "x".data, none]]⟩
    (by decide) (by decide) (by decide) (by decide)

/-! ### Grouping and aggregation -/

/-- Insertion step of a stable descending sort on the summed-revenue
component (`sort_values("Revenue", ascending=False)`). -/
def insertDesc {κ : Type _} (x : κ × ℚ) : List (κ × ℚ) → List (κ × ℚ)
  | [] => [x]
  | y :: ys => if y.2 < x.2 then x :: y :: ys else y :: insertDesc x ys

/-- Stable descending sort by the summed-revenue component. -/
def sortDescBySnd {κ : Type _} : List (κ × ℚ) → List (κ × ℚ)
  | [] => []
  | x :: xs => insertDesc x (sortDescBySnd xs)

/-- `Series.round(2)`: round half to even at two decimal places. -/
def round2 (q : ℚ) : ℚ := (rhe (q * 100) : ℚ) / 100

/-- The group/sum core of `_group_sum`: one row per distinct key (`dropna=False`
keeps every key value), carrying the exact sum of `rev` over the rows with
that key. -/
def group_sum_raw {α κ : Type _} [DecidableEq κ] (key : α → κ) (rev : α → ℚ)
    (rows : List α) : List (κ × ℚ) :=
  ((rows.map key).dedup).map fun k =>
    (k, ((rows.filter fun r => decide (key r = k)).map rev).sum)

/-- `_group_sum` from `src/processing.py`: group by `key`, sum `Revenue`, sort
descending by the sum, then round the displayed sum to 2 decimal places. -/
def _group_sum {α κ : Type _} [DecidableEq κ] (key : α → κ) (rev : α → ℚ)
    (rows : List α) : List (κ × ℚ) :=
  (sortDescBySnd (group_sum_raw key rev rows)).map fun p => (p.1, round2 p.2)

theorem insertDesc_perm {κ : Type _} (x : κ × ℚ) :
    ∀ l : List (κ × ℚ), List.Perm (insertDesc x l) (x :: l)
  | [] => List.Perm.refl _
  | y :: ys => by
    by_cases h : y.2 < x.2
    · simp [insertDesc, h]
    · simp only [insertDesc, if_neg h]
      exact ((insertDesc_perm x ys).cons y).trans (List.Perm.swap x y ys)

theorem sortDescBySnd_perm {κ : Type _} :
    ∀ l : List (κ × ℚ), List.Perm (sortDescBySnd l) l
  | [] => List.Perm.refl _
  | x :: xs =>
    (insertDesc_perm x (sortDescBySnd xs)).trans ((sortDescBySnd_perm xs).cons x)

theorem sum_map_filter_split {α : Type _} (p : α → Bool) (f : α → ℚ) :
    ∀ l : List α,
      ((l.filter p).map f).sum + ((l.filter fun a => !p a).map f).sum = (l.map f).sum
  | [] => by simp
  | a :: l => by
    have ih := sum_map_filter_split p f l
    by_cases h : p a <;>
      simp [List.filter_cons, h, List.sum_cons, ← ih] <;> ring

theorem sum_filter_key {α κ : Type _} [DecidableEq κ] (key : α → κ) (rev : α → ℚ) :
    ∀ (ks : List κ) (rows : List α), ks.Nodup → (∀ r ∈ rows, key r ∈ ks) →
      (ks.map fun k => ((rows.filter fun r => decide (key r = k)).map rev).sum).sum
        = (rows.map rev).sum
  | [], rows, _, hcov => by
    cases rows with
    | nil => simp
    | cons r rows => exact absurd (hcov r (List.mem_cons_self r rows)) (by simp)
  | k :: ks, rows, hnd, hcov => by
    have hk : k ∉ ks := (List.nodup_cons.mp hnd).1
    have hnd' : ks.Nodup := (List.nodup_cons.mp hnd).2
    have hsplit := sum_map_filter_split (fun r => decide (key r = k)) rev rows
    set rows' := rows.filter fun r => !decide (key r = k) with hrows'
    have hcov' : ∀ r ∈ rows', key r ∈ ks := by
      intro r hr
      have hmem := List.mem_filter.mp hr
      have := hcov r hmem.1
      rcases List.mem_cons.mp this with h | h
      · exact absurd (decide_eq_true h) (by simpa using hmem.2)
      · exact h
    have ih := sum_filter_key key rev ks rows' hnd' hcov'
    have hsame : ∀ k' ∈ ks,
        (rows'.filter fun r => decide (key r = k')) =
          rows.filter fun r => decide (key r = k') := by
      intro k' hk'
      rw [hrows', List.filter_filter]
      refine List.filter_congr fun r _ => ?_
      by_cases h : key r = k'
      · have hkk : ¬ k' = k := fun hc => hk (hc ▸ hk')
        simp [h, hkk]
      · simp [h]
    have hmapeq :
        (ks.map fun k' => ((rows.filter fun r => decide (key r = k')).map rev).sum) =
          ks.map fun k' => ((rows'.filter fun r => decide (key r = k')).map rev).sum :=
      List.map_congr_left fun k' hk' => by rw [hsame k' hk']
    calc ((k :: ks).map fun k' =>
            ((rows.filter fun r => decide (key r = k')).map rev).sum).sum
        = ((rows.filter fun r => decide (key r = k)).map rev).sum +
            (ks.map fun k' =>
              ((rows.filter fun r => decide (key r = k')).map rev).sum).sum := by
          simp [List.sum_cons]
      _ = ((rows.filter fun r => decide (key r = k)).map rev).sum +
            (rows'.map rev).sum := by rw [hmapeq, ih]
      _ = (rows.map rev).sum := hsplit

/-- Conservation of the exact (pre-rounding) grouped sums. -/
theorem group_sum_raw_total {α κ : Type _} [DecidableEq κ] (key : α → κ)
    (rev : α → ℚ) (rows : List α) :
    ((group_sum_raw key rev rows).map Prod.snd).sum = (rows.map rev).sum := by
  unfold group_sum_raw
  rw [List.map_map]
  exact sum_filter_key key rev _ rows (List.nodup_dedup (rows.map key))
    fun r hr => List.mem_dedup.mpr (List.mem_map_of_mem key hr)

theorem rhe_int (n : ℤ) : rhe (n : ℚ) = n := by
  have hf : ((n : ℚ)).floor = n := by
    show ⌊(n : ℚ)⌋ = n
    exact Int.floor_intCast n
  simp [rhe, hf]

theorem round2_cents (n : ℤ) : round2 ((n : ℚ) / 100) = (n : ℚ) / 100 := by
  have h : ((n : ℚ) / 100) * 100 = (n : ℚ) := by
    field_simp
  rw [round2, h, rhe_int]

theorem sum_cents {α : Type _} (f : α → ℚ) :
    ∀ l : List α, (∀ x ∈ l, ∃ n : ℤ, f x = (n : ℚ) / 100) →
      ∃ n : ℤ, (l.map f).sum = (n : ℚ) / 100
  | [], _ => ⟨0, by simp⟩
  | a :: l, h => by
    obtain ⟨m, hm⟩ := h a (List.mem_cons_self a l)
    obtain ⟨n, hn⟩ := sum_cents f l fun x hx => h x (List.mem_cons_of_mem a hx)
    exact ⟨m + n, by push_cast [List.map_cons, List.sum_cons, hm, hn]; ring⟩

/-- C5 (counterexample): with two records of revenue `1/8` under distinct
keys, the aggregator's rounded per-group sums add to `0.24`, while the
ungrouped total is `0.25`: the 2-decimal display rounding inside `_group_sum`
breaks exact conservation. -/
theorem c5_conservation_counterexample :
    ((_group_sum Prod.fst Prod.snd
        [(("A".data : Str), (1 : ℚ) / 8), ("B".data, 1 / 8)]).map Prod.snd).sum ≠
      ([(("A".data : Str), (1 : ℚ) / 8), ("B".data, 1 / 8)].map Prod.snd).sum := by
  decide

/-- C5 (amended): summing the aggregator's per-group revenue over any record
set equals the ungrouped total revenue, for every grouping key, provided every
record's revenue is a whole number of cents (so that the 2-decimal display
rounding inside `_group_sum` is lossless); the exact pre-rounding group sums
conserve the total unconditionally (`group_sum_raw_total`). -/
theorem c5_conservation_amended {α κ : Type _} [DecidableEq κ] (key : α → κ)
    (rev : α → ℚ) (rows : List α)
    (h : ∀ r ∈ rows, ∃ n : ℤ, rev r = (n : ℚ) / 100) :
    ((_group_sum key rev rows).map Prod.snd).sum = (rows.map rev).sum := by
  have hcents : ∀ p ∈ group_sum_raw key rev rows, round2 p.2 = p.2 := by
    intro p hp
    obtain ⟨k, _, rfl⟩ := List.mem_map.mp hp
    obtain ⟨n, hn⟩ := sum_cents rev (rows.filter fun r => decide (key r = k))
      fun x hx => h x (List.mem_filter.mp hx).1
    simp only [hn]
    exact round2_cents n
  have hperm : List.Perm
      ((sortDescBySnd (group_sum_raw key rev rows)).map fun p => round2 p.2)
      ((group_sum_raw key rev rows).map fun p => round2 p.2) :=
    (sortDescBySnd_perm _).map _
  calc ((_group_sum key rev rows).map Prod.snd).sum
      = ((sortDescBySnd (group_sum_raw key rev rows)).map fun p => round2 p.2).sum := by
        simp only [_group_sum, List.map_map]
        rfl
    _ = ((group_sum_raw key rev rows).map fun p => round2 p.2).sum := hperm.sum_eq
    _ = ((group_sum_raw key rev rows).map Prod.snd).sum := by
        rw [List.map_congr_left fun p hp => hcents p hp]
    _ = (rows.map rev).sum := group_sum_raw_total key rev rows

/-- C5 witness: conservation through `_group_sum` on a concrete two-record
dataset whose revenues are whole cents. -/
theorem c5_conservation_witness :
    ((_group_sum Prod.fst Prod.snd
        [(("A".data : Str), (25 : ℚ) / 100), ("B".data, (75 : ℚ) / 100)]).map Prod.snd).sum =
      ([(("A".data : Str), (25 : ℚ) / 100), ("B".data, (75 : ℚ) / 100)].map Prod.snd).sum := by
  refine c5_conservation_amended Prod.fst Prod.snd _ ?_
  intro r hr
  rcases List.mem_cons.mp hr with rfl | hr
  · exact ⟨25, by norm_num⟩
  rcases List.mem_cons.mp hr with rfl | hr
  · exact ⟨75, by norm_num⟩
  · simp at hr

/-! ### Frame model

A pandas `DataFrame` is embedded as a header list plus aligned rows of typed
cells. In-place column assignment (`df[name] = values`) is modelled by
`Frame.setCol`; every frame operation of the engine returns a pair
`(return value, state of the caller's frame after the call)` so that
mutation of the argument is observable. -/

/-- One cell of a frame: a string, a datetime (`none` is `NaT`), a float, or
an object cell holding an optional string (`none` is `None`/`NaN`). -/
inductive Cell where
  | str (s : Str)
  | date (o : Option CivDate)
  | num (q : ℚ)
  | obj (o : Option Str)
deriving DecidableEq

/-- A pandas frame: column headers and aligned rows of cells. -/
structure Frame where
  headers : List Str
  rows : List (List Cell)
deriving DecidableEq

/-- `df.empty`: true when the frame has no rows (or no columns at all). -/
def Frame.isEmpty (f : Frame) : Bool := f.rows.isEmpty || f.headers.isEmpty

/-- `df[name]` (unique column labels assumed, as in the normalized data). -/
def Frame.getCol (f : Frame) (name : Str) : List Cell :=
  match f.headers.findIdx? (· == name) with
  | some i => f.rows.map fun r => r.getD i (Cell.obj none)
  | none => []

/-- `df[name] = vals`: replace the column if the label exists, otherwise
append a new column (pandas requires `vals` to be aligned with the rows; the
`zip` realizes that alignment). -/
def Frame.setCol (f : Frame) (name : Str) (vals : List Cell) : Frame :=
  match f.headers.findIdx? (· == name) with
  | some i => { f with rows := (f.rows.zip vals).map fun rv => rv.1.set i rv.2 }
  | none =>
    { headers := f.headers ++ [name],
      rows := (f.rows.zip vals).map fun rv => rv.1 ++ [rv.2] }

/-- The string carried by a cell, as `classify_channel` receives it (`None`
for a missing object value; non-string cells do not occur in the channel
column after normalization). -/
def cellToOptStr : Cell → Option Str
  | .str s => some s
  | .obj o => o
  | .date _ => none
  | .num _ => none

/-- The datetime carried by a cell (`pd.to_datetime` on an already-coerced
datetime column is the identity; other cell kinds do not occur there). -/
def cellDate : Cell → Option CivDate
  | .date o => o
  | _ => none

/-- `Series.min()` over datetimes: the smallest non-`NaT` value, if any. -/
def minDate? (ds : List (Option CivDate)) : Option CivDate :=
  ds.foldl
    (fun acc o =>
      match acc, o with
      | none, o => o
      | some a, none => some a
      | some a, some b => if daysFromCivil b < daysFromCivil a then some b else some a)
    none

/-- `ensure_channel_bucket` from `src/processing.py`; the second component is
the caller's frame after the call. -/
def ensure_channel_bucket (df : Frame) : Frame × Frame :=
  if "_ChannelBucket".data ∈ df.headers then (df, df)
  else
    let out := df.setCol "_ChannelBucket".data
      ((df.getCol "RTB Channel".data).map fun c => Cell.obj (classify_channel (cellToOptStr c)))
    (out, df)

/-- The `"Week {n}"` label of one row. On a `NaT` date (or an all-`NaT`
dataset minimum) the real code would raise inside `int(...)`; such a label is
immaterial to every claim and modelled as a missing value. -/
def weekCell (start : Option CivDate) (o : Option CivDate) : Cell :=
  match o, start with
  | some d, some s => Cell.str ("Week ".data ++ intDigits (week_index_relative d s))
  | _, _ => Cell.obj none

/-- `add_relative_week` from `src/processing.py`: on an empty frame it writes
`df["_Week"] = []` into the caller's frame and returns that same frame;
otherwise it computes into a copy. -/
def add_relative_week (df : Frame) : Frame × Frame :=
  if df.isEmpty then
    let df2 := df.setCol "_Week".data []
    (df2, df2)
  else
    let dates := (df.getCol "Date - EST".data).map cellDate
    let start := minDate? dates
    let out := df.setCol "_Week".data (dates.map (weekCell start))
    (out, df)

/-- Zero-padded 4-digit year as produced by `strftime("%Y")` (years in the
data are positive). -/
def pad4 (n : Nat) : Str :=
  List.replicate (4 - (natDigits n).length) '0' ++ natDigits n

/-- English month abbreviation as produced by `strftime("%b")`. -/
def monthAbbrev (m : Nat) : Str :=
  (["Jan", "Feb", "Mar", "Apr", "May", "Jun", "Jul", "Aug", "Sep", "Oct",
    "Nov", "Dec"].getD (m - 1) "").data

/-- `strftime("%Y-%m")` of one row (`NaT` gives a missing value). -/
def monthKeyCell : Option CivDate → Cell
  | none => Cell.obj none
  | some dt => Cell.str (pad4 dt.y.toNat ++ '-' :: pad2 dt.m)

/-- `strftime("%b %Y")` of one row (`NaT` gives a missing value). -/
def monthLabelCell : Option CivDate → Cell
  | none => Cell.obj none
  | some dt => Cell.str (monthAbbrev dt.m ++ ' ' :: pad4 dt.y.toNat)

/-- `"W" + bucket.astype(str)` of one row. -/
def w4Cell (o : Option CivDate) : Cell :=
  Cell.str ('W' :: natDigits (fourWeekBucket o))

/-- `add_four_week_in_month` from `src/processing.py`: on an empty frame it
writes the three empty derived columns into the caller's frame and returns
that same frame; otherwise it computes into a copy. -/
def add_four_week_in_month (df : Frame) : Frame × Frame :=
  if df.isEmpty then
    let df2 :=
      ((df.setCol "_MonthKey".data []).setCol "_MonthLabel".data []).setCol "_W4".data []
    (df2, df2)
  else
    let dates := (df.getCol "Date - EST".data).map cellDate
    let out :=
      ((df.setCol "_MonthKey".data (dates.map monthKeyCell)).setCol
        "_MonthLabel".data (dates.map monthLabelCell)).setCol
        "_W4".data (dates.map w4Cell)
    (out, df)

/-- C9 (counterexample): on an empty frame, `add_relative_week` and
`add_four_week_in_month` mutate the caller's frame (they add the derived
columns in place and return the same object, not a copy). -/
theorem c9_mutation_counterexample :
    (add_relative_week ⟨["Date - EST".data], []⟩).2 ≠ ⟨["Date - EST".data], []⟩ ∧
    (add_four_week_in_month ⟨["Date - EST".data], []⟩).2 ≠ ⟨["Date - EST".data], []⟩ := by
  refine ⟨by decide, by decide⟩

/-- C9 (amended): `ensure_channel_bucket` never mutates the caller's frame;
`add_relative_week` and `add_four_week_in_month` never mutate a nonempty
frame (they compute into a private copy), but on an empty frame both write
their empty derived columns into the caller's frame in place and return that
same mutated frame. -/
theorem c9_no_mutation_amended :
    (∀ df : Frame, (ensure_channel_bucket df).2 = df) ∧
    (∀ df : Frame, df.isEmpty = false →
      (add_relative_week df).2 = df ∧ (add_four_week_in_month df).2 = df) ∧
    (∀ df : Frame, df.isEmpty = true →
      (add_relative_week df).2 = df.setCol "_Week".data [] ∧
      (add_four_week_in_month df).2 =
        ((df.setCol "_MonthKey".data []).setCol "_MonthLabel".data []).setCol
          "_W4".data []) := by
  refine ⟨fun df => ?_, fun df h => ?_, fun df h => ?_⟩
  · by_cases hm : "_ChannelBucket".data ∈ df.headers <;>
      simp [ensure_channel_bucket, hm]
  · exact ⟨by simp [add_relative_week, h], by simp [add_four_week_in_month, h]⟩
  · exact ⟨by simp [add_relative_week, h], by simp [add_four_week_in_month, h]⟩

/-- C9 witness: the no-mutation clause for nonempty frames evaluated on a
concrete one-row frame. -/
theorem c9_no_mutation_witness :
    (Frame.mk ["Date - EST".data] [[Cell.date (some ⟨2024, 1, 1⟩)]]).isEmpty = false ∧
    (add_relative_week (Frame.mk ["Date - EST".data] [[Cell.date (some ⟨2024, 1, 1⟩)]])).2 =
      Frame.mk ["Date - EST".data] [[Cell.date (some ⟨2024, 1, 1⟩)]] :=
  ⟨by decide,
   (c9_no_mutation_amended.2.1 _ (by decide)).1⟩

/-! ### Ingestion: column normalization and type coercion -/

/-- `REQUIRED_COLUMNS` from `src/processing.py`. -/
def REQUIRED_COLUMNS : List Str :=
  ["Date - EST".data, "RTB Channel".data, "RTB Advertiser".data, "RTB SSP".data,
   "System".data, "RTB Deal ID".data, "RTB Creative ID".data, "Revenue".data]

/-- A character surviving `re.sub(r"[^0-9a-z]+", " ", s)` after lower-casing. -/
def isLowerAlnum (c : Char) : Bool := c.isDigit || ('a' ≤ c && c ≤ 'z')

/-- `_canonicalize` from `src/processing.py`: lower-case, collapse every run
of non-alphanumeric characters to a single space, and trim. -/
def _canonicalize (s : Str) : Str :=
  joinSepStr [' ']
    (((splitOnP fun c => !isLowerAlnum c) (pyLower s)).filter fun w => !w.isEmpty)

/-- The alias table `candidates` of `_build_column_map`, in declared order. -/
def candidates : List (Str × List Str) :=
  [("Date - EST".data, ["date est".data, "date".data]),
   ("RTB Channel".data, ["rtb channel".data, "channel".data]),
   ("RTB Advertiser".data, ["rtb advertiser".data, "advertiser".data]),
   ("RTB SSP".data, ["rtb ssp".data, "ssp".data]),
   ("System".data, ["system".data]),
   ("RTB Deal ID".data, ["rtb deal id".data, "deal id".data, "deal".data]),
   ("RTB Creative ID".data, ["rtb creative id".data, "creative id".data, "creative".data]),
   ("Revenue".data, ["revenue".data, "rev".data, "amount".data])]

/-- Lookup in the `incoming` dict `{_canonicalize(c): c for c in cols}`: a
later column with the same canonical form overwrites an earlier one, hence
the reversed search. -/
def lookupIncoming (cols : List Str) (key : Str) : Option Str :=
  cols.reverse.find? fun c => _canonicalize c == key

/-- `_build_column_map` from `src/processing.py`: for each canonical field,
the first alias present among the canonicalized incoming columns wins. -/
def _build_column_map (cols : List Str) : List (Str × Str) :=
  candidates.filterMap fun p =>
    (p.2.findSome? (lookupIncoming cols)).map fun v => (p.1, v)

/-- `missing = [c for c in REQUIRED_COLUMNS if c not in mapping]`. -/
def missingCols (cols : List Str) : List Str :=
  REQUIRED_COLUMNS.filter fun c => !(_build_column_map cols).any fun pr => pr.1 == c

/-- `still_missing = [c for c in missing if c not in df.columns]`. -/
def stillMissingCols (cols : List Str) : List Str :=
  (missingCols cols).filter fun c => !cols.any (· == c)

/-- The rename loop of `read_and_normalize`: for each canonical name not
already present verbatim, rename its mapped raw header to the canonical name. -/
def renameColumns (cols : List Str) (mapping : List (Str × Str)) : List Str :=
  REQUIRED_COLUMNS.foldl
    (fun hs canonical =>
      if canonical ∈ hs then hs
      else
        match mapping.find? fun pr => pr.1 == canonical with
        | some pr => hs.map fun h => if h == pr.2 then canonical else h
        | none => hs)
    cols

/-- The six identifier/category columns whose cells are trimmed. -/
def stringCols : List Str :=
  ["RTB Channel".data, "RTB Advertiser".data, "RTB SSP".data, "System".data,
   "RTB Deal ID".data, "RTB Creative ID".data]

/-- `astype(str)` of one ingested cell. Ingestion presents raw CSV text as
string cells, so only the string cases occur before coercion. -/
def cellRaw : Cell → Str
  | .str s => s
  | .obj (some s) => s
  | .obj none => "None".data
  | .date _ => []
  | .num _ => []

/-- The per-column coercion of `read_and_normalize`: dates through the
caller-supplied parser (`pd.to_datetime(errors="coerce")`), revenue through
`coerceRevenue`, identifier columns trimmed, all other columns untouched. -/
def coerceCell (parseDate : Str → Option CivDate) (h : Str) (c : Cell) : Cell :=
  if h == "Date - EST".data then Cell.date (parseDate (cellRaw c))
  else if h == "Revenue".data then Cell.num (coerceRevenue (cellRaw c))
  else if stringCols.any (· == h) then Cell.str (pyStrip (cellRaw c))
  else c

/-- `read_and_normalize` from `src/processing.py`, after the raw source has
been parsed into a frame: empty frames are returned untouched; otherwise
headers are stripped, required columns resolved (raising `ValueError` with
the full list of still-missing names), renamed, and cell types coerced. The
date parser is the `pd.to_datetime` collaborator, passed as a parameter. -/
def read_and_normalize (parseDate : Str → Option CivDate) (df : Frame) :
    Except Str Frame :=
  if df.isEmpty then .ok df
  else
    let cols := df.headers.map pyStrip
    let mapping := _build_column_map cols
    let still := stillMissingCols cols
    if still.isEmpty then
      let cols2 := renameColumns cols mapping
      .ok
        { headers := cols2,
          rows := df.rows.map fun r => (cols2.zip r).map fun hc => coerceCell parseDate hc.1 hc.2 }
    else .error ("Missing required columns: ".data ++ joinSepStr ", ".data still)

/-- C10 (confirmed): a source that parses to zero rows is returned as-is by
`read_and_normalize` — required-column validation, renaming, and coercion are
all skipped, so no missing-columns error can be raised and the result keeps
the original (non-canonical) headers. -/
theorem c10_empty_early_return (parseDate : Str → Option CivDate) (df : Frame)
    (h : df.rows = []) :
    read_and_normalize parseDate df = .ok df := by
  have he : df.isEmpty = true := by simp [Frame.isEmpty, h]
  simp [read_and_normalize, he]

/-- C10 witness: a zero-row frame whose only header resolves to no canonical
column is returned unchanged, without error. -/
theorem c10_empty_early_return_witness :
    read_and_normalize (fun _ => none) (Frame.mk ["foo".data] []) =
      .ok (Frame.mk ["foo".data] []) :=
  c10_empty_early_return (fun _ => none) _ rfl

theorem findSome?_isSome_of_mem {β γ : Type _} (g : β → Option γ) :
    ∀ (l : List β) (k : β), k ∈ l → (g k).isSome → (l.findSome? g).isSome
  | [], k, hk, _ => absurd hk (List.not_mem_nil k)
  | a :: l, k, hk, hg => by
    rw [List.findSome?_cons]
    cases hga : g a with
    | some v => simp
    | none =>
      rcases List.mem_cons.mp hk with rfl | hk'
      · rw [hga] at hg
        simp at hg
      · exact findSome?_isSome_of_mem g l k hk' hg

/-- Membership of a canonical field in `_build_column_map cols` is exactly the
existence of an alias of that field matching a canonicalized column. -/
theorem buildMap_any_iff (cols : List Str) (c : Str) :
    ((_build_column_map cols).any fun pr => pr.1 == c) = true ↔
      ∃ p ∈ candidates, p.1 = c ∧ ∃ k ∈ p.2, ∃ h ∈ cols, _canonicalize h = k := by
  constructor
  · intro hany
    obtain ⟨pr, hpr, hbeq⟩ := List.any_eq_true.mp hany
    obtain ⟨p, hp, hfp⟩ := List.mem_filterMap.mp hpr
    obtain ⟨v, hv, hpr'⟩ := Option.map_eq_some'.mp hfp
    obtain ⟨k, hk, hlk⟩ := List.exists_of_findSome?_eq_some hv
    have hpv : _canonicalize v = k := by
      have := List.find?_some hlk
      simpa using this
    have hvc : v ∈ cols := List.mem_reverse.mp (List.mem_of_find?_eq_some hlk)
    refine ⟨p, hp, ?_, k, hk, v, hvc, hpv⟩
    have : pr.1 = c := by simpa using hbeq
    rw [← this, ← hpr']
  · rintro ⟨p, hp, hpc, k, hk, h, hh, hch⟩
    have hlk : (lookupIncoming cols k).isSome := by
      rw [lookupIncoming, List.find?_isSome]
      exact ⟨h, List.mem_reverse.mpr hh, by simp [hch]⟩
    have hfs : (p.2.findSome? (lookupIncoming cols)).isSome :=
      findSome?_isSome_of_mem _ p.2 k hk hlk
    obtain ⟨v, hv⟩ := Option.isSome_iff_exists.mp hfs
    refine List.any_eq_true.mpr
      ⟨(p.1, v), List.mem_filterMap.mpr ⟨p, hp, by rw [hv]; rfl⟩, by simp [hpc]⟩

/-- `still_missing` is exactly the list of required fields with neither a
verbatim header match nor an alias match. -/
theorem stillMissing_eq (cols : List Str) :
    stillMissingCols cols = REQUIRED_COLUMNS.filter fun c =>
      !(decide (c ∈ cols) ||
        decide (∃ p ∈ candidates, p.1 = c ∧ ∃ k ∈ p.2, ∃ h ∈ cols, _canonicalize h = k)) := by
  rw [stillMissingCols, missingCols, List.filter_filter]
  refine List.filter_congr fun c _ => ?_
  by_cases h1 : c ∈ cols
  · have ha : cols.any (· == c) = true := List.any_eq_true.mpr ⟨c, h1, by simp⟩
    simp [ha, h1]
  · have ha : cols.any (· == c) = false := by
      rw [← Bool.not_eq_true]
      intro hc
      obtain ⟨x, hx, he⟩ := List.any_eq_true.mp hc
      exact h1 (by rwa [show x = c from by simpa using he] at hx)
    by_cases h2 : ∃ p ∈ candidates, p.1 = c ∧ ∃ k ∈ p.2, ∃ h ∈ cols, _canonicalize h = k
    · have hm := (buildMap_any_iff cols c).mpr h2
      simp [ha, hm, h1, h2]
    · have hm : ((_build_column_map cols).any fun pr => pr.1 == c) = false := by
        rw [← Bool.not_eq_true]
        exact fun hc => h2 ((buildMap_any_iff cols c).mp hc)
      simp [ha, hm, h1, h2]

/-- C8 (confirmed): when some required canonical fields have neither a
verbatim header match nor an alias match, `read_and_normalize` fails with an
error message listing the full set of unresolved canonical names — which is
exactly `REQUIRED_COLUMNS` filtered to the fields with no verbatim and no
alias match. -/
theorem c8_missing_columns (parseDate : Str → Option CivDate) (df : Frame)
    (hne : df.isEmpty = false)
    (hmiss : stillMissingCols (df.headers.map pyStrip) ≠ []) :
    read_and_normalize parseDate df =
      .error ("Missing required columns: ".data ++
        joinSepStr ", ".data (stillMissingCols (df.headers.map pyStrip))) ∧
    stillMissingCols (df.headers.map pyStrip) =
      REQUIRED_COLUMNS.filter fun c =>
        !(decide (c ∈ df.headers.map pyStrip) ||
          decide (∃ p ∈ candidates, p.1 = c ∧ ∃ k ∈ p.2,
            ∃ h ∈ df.headers.map pyStrip, _canonicalize h = k)) := by
  constructor
  · have hIsEmpty : (stillMissingCols (df.headers.map pyStrip)).isEmpty = false := by
      cases h : stillMissingCols (df.headers.map pyStrip) with
      | nil => exact absurd h hmiss
      | cons a l => rfl
    simp [read_and_normalize, hne, hIsEmpty]
  · exact stillMissing_eq _

/-- C8 witness: a one-column frame resolving only `Revenue`; ingestion fails
naming the seven other canonical fields. -/
theorem c8_missing_columns_witness :
    (Frame.mk ["Revenue".data] [[Cell.str "5".data]]).isEmpty = false ∧
    stillMissingCols ((Frame.mk ["Revenue".data] [[Cell.str "5".data]]).headers.map pyStrip) ≠ [] ∧
    read_and_normalize (fun _ => none) (Frame.mk ["Revenue".data] [[Cell.str "5".data]]) =
      .error ("Missing required columns: ".data ++ joinSepStr ", ".data
        (stillMissingCols ((Frame.mk ["Revenue".data] [[Cell.str "5".data]]).headers.map pyStrip))) :=
  ⟨by decide, by decide,
   (c8_missing_columns (fun _ => none) (Frame.mk ["Revenue".data] [[Cell.str "5".data]])
     (by decide) (by decide)).1⟩

/-! ### Fixed-width report formatter -/

/-- `_truncate_left` from `src/processing.py`. -/
def _truncate_left (left : Str) (maxChars : Nat) : Str :=
  if left.length ≤ maxChars then left
  else if maxChars ≤ 3 then left.take maxChars
  else left.take (maxChars - 3) ++ "...".data

/-- `_bold_alnum` from `src/processing.py`: map ASCII alphanumerics to their
mathematical-bold Unicode variants (a 1-to-1 character map). -/
def _bold_alnum (s : Str) : Str :=
  s.map fun ch =>
    let o := ch.toNat
    if 0x41 ≤ o && o ≤ 0x5A then Char.ofNat (0x1D400 + (o - 0x41))
    else if 0x61 ≤ o && o ≤ 0x7A then Char.ofNat (0x1D41A + (o - 0x61))
    else if 0x30 ≤ o && o ≤ 0x39 then Char.ofNat (0x1D7CE + (o - 0x30))
    else ch

/-- `width = min(max(42, amount_col + 20), page_width)`. -/
def blockWidth (amount_col page_width : Nat) : Nat :=
  min (max 42 (amount_col + 20)) page_width

/-- `max_right = max((len(format_usd(v)) for _, v in pairs), default=len("$0"))`. -/
def maxRightLen (pairs : List (Str × ℚ)) : Nat :=
  if pairs.isEmpty then "$0".data.length
  else (pairs.map fun p => (format_usd p.2).length).foldr max 0

/-- `effective_amount_col = max(1, min(amount_col, width - max_right - 1))`
(Python's negative intermediate results clamp to the same value as the
truncated natural subtraction). -/
def effCol (amount_col page_width : Nat) (pairs : List (Str × ℚ)) : Nat :=
  max 1 (min amount_col (blockWidth amount_col page_width - maxRightLen pairs - 1))

/-- The loop body of `format_section_block`: truncated label, at least one
padding space, formatted amount, with the final defensive clip to `width`. -/
def mkBodyLine (width eff budget : Nat) (p : Str × ℚ) : Str :=
  let left := _truncate_left p.1 budget
  let right := format_usd p.2
  let spaces := max 1 (eff - left.length - right.length)
  let line := left ++ List.replicate spaces ' ' ++ right
  if width < line.length then line.take width else line

/-- The list of lines built by `format_section_block` (header, optional rule,
one line per pair), before `"\n".join`. -/
def format_section_block_lines (sec : Str) (pairs : List (Str × ℚ))
    (section_total : ℚ) (amount_col page_width : Nat) (max_left_chars : Option Nat)
    (include_rule : Bool) (header_override : Option Str) : List Str :=
  let header := _bold_alnum (header_override.getD
    (sec ++ " (".data ++ format_usd section_total ++
      ") All Accounts (Overall Total)".data))
  let width := blockWidth amount_col page_width
  let rule := List.replicate width '='
  let eff := effCol amount_col page_width pairs
  let budget := max_left_chars.getD (min 34 (eff - 1))
  header :: (if include_rule then [rule] else []) ++ pairs.map (mkBodyLine width eff budget)

/-- `format_section_block` from `src/processing.py`: the joined text block. -/
def format_section_block (sec : Str) (pairs : List (Str × ℚ))
    (section_total : ℚ) (amount_col page_width : Nat) (max_left_chars : Option Nat)
    (include_rule : Bool) (header_override : Option Str) : Str :=
  joinSepStr ['\n']
    (format_section_block_lines sec pairs section_total amount_col page_width
      max_left_chars include_rule header_override)

theorem truncate_left_length_le (l : Str) (m : Nat) :
    (_truncate_left l m).length ≤ m := by
  rw [_truncate_left]
  split
  next h => exact h
  next h =>
    split
    next h2 => simp only [List.length_take]; omega
    next h2 => simp only [List.length_append, List.length_take]; simp; omega

theorem mkBodyLine_length_le (width eff budget : Nat) (p : Str × ℚ) :
    (mkBodyLine width eff budget p).length ≤ width := by
  rw [mkBodyLine]
  split
  next h => simp only [List.length_take]; omega
  next h => omega

theorem mkBodyLine_shape (width eff budget : Nat) (p : Str × ℚ)
    (hb : (_truncate_left p.1 budget).length + 1 ≤ width) :
    ∃ k rest, 1 ≤ k ∧ rest <+: format_usd p.2 ∧
      mkBodyLine width eff budget p =
        _truncate_left p.1 budget ++ List.replicate k ' ' ++ rest := by
  simp only [mkBodyLine]
  set left := _truncate_left p.1 budget with hleft
  set right := format_usd p.2 with hright
  set s := max 1 (eff - left.length - right.length) with hsdef
  have hs1 : 1 ≤ s := le_max_left 1 _
  split
  next h =>
    refine ⟨min (width - left.length) s, right.take (width - left.length - s),
      by omega, List.take_prefix _ _, ?_⟩
    rw [List.take_append_eq_append_take, List.take_append_eq_append_take,
      List.take_replicate]
    have h1 : left.take width = left := List.take_of_length_le (by omega)
    rw [h1]
    simp only [List.length_append, List.length_replicate, List.append_assoc]
    rw [Nat.sub_sub]
  next h =>
    exact ⟨s, right, hs1, List.prefix_refl _, rfl⟩

/-- C4 (counterexample): the header line of `format_section_block` is never
clipped: with a 50-character section name, `amount_col = 22`, and
`page_width = 42`, the header line exceeds the computed block width 42. -/
theorem c4_section_block_counterexample :
    blockWidth 22 42 = 42 ∧
    ∃ l ∈ format_section_block_lines (List.replicate 50 'a') [] 0 22 42 none false none,
      blockWidth 22 42 < l.length :=
  ⟨by decide, by decide⟩

/-- C4 (amended): with the default label budget, every line of the block
after the header (the optional rule and every body line) has length at most
`min(max(42, amount_col + 20), page_width)`, and every body line consists of
the truncated label, at least one separating space, and a prefix of the
formatted amount — but the header line itself is exempt from the width bound
(`c4_section_block_counterexample`). Requires a positive `page_width` (the
spec bounds it to 42–80). -/
theorem c4_section_block_amended (sec : Str) (pairs : List (Str × ℚ)) (total : ℚ)
    (ac pw : Nat) (ir : Bool) (ho : Option Str) (hpw : 1 ≤ pw) :
    (∀ l ∈ (format_section_block_lines sec pairs total ac pw none ir ho).tail,
        l.length ≤ blockWidth ac pw) ∧
    (∀ p ∈ pairs, ∃ k rest, 1 ≤ k ∧ rest <+: format_usd p.2 ∧
        _truncate_left p.1 (min 34 (effCol ac pw pairs - 1)) ++
            List.replicate k ' ' ++ rest ∈
          (format_section_block_lines sec pairs total ac pw none ir ho).tail) := by
  have hwidth1 : 1 ≤ blockWidth ac pw := by
    rw [blockWidth]
    omega
  have hbudget : min 34 (effCol ac pw pairs - 1) + 1 ≤ blockWidth ac pw := by
    rw [effCol]
    omega
  have htail : (format_section_block_lines sec pairs total ac pw none ir ho).tail
      = (if ir then [List.replicate (blockWidth ac pw) '='] else []) ++
        pairs.map (mkBodyLine (blockWidth ac pw) (effCol ac pw pairs)
          (min 34 (effCol ac pw pairs - 1))) := by
    simp [format_section_block_lines]
  constructor
  · intro l hl
    rw [htail] at hl
    rcases List.mem_append.mp hl with h | h
    · by_cases hir : ir
      · simp [hir] at h
        simp [h, List.length_replicate]
      · simp [hir] at h
    · obtain ⟨p, hp, rfl⟩ := List.mem_map.mp h
      exact mkBodyLine_length_le _ _ _ _
  · intro p hp
    have hb : (_truncate_left p.1 (min 34 (effCol ac pw pairs - 1))).length + 1 ≤
        blockWidth ac pw := by
      have := truncate_left_length_le p.1 (min 34 (effCol ac pw pairs - 1))
      omega
    obtain ⟨k, rest, hk, hpre, heq⟩ := mkBodyLine_shape (blockWidth ac pw)
      (effCol ac pw pairs) (min 34 (effCol ac pw pairs - 1)) p hb
    refine ⟨k, rest, hk, hpre, ?_⟩
    rw [htail, ← heq]
    exact List.mem_append_right _ (List.mem_map_of_mem _ hp)

/-- C4 witness: the amended width and spacing properties evaluated on a
concrete one-pair block with `amount_col = 40`, `page_width = 80`. -/
theorem c4_section_block_witness :
    (∀ l ∈ (format_section_block_lines "By".data [("Alpha".data, (5 : ℚ))] 5 40 80
        none false none).tail,
      l.length ≤ blockWidth 40 80) ∧
    (∀ p ∈ [("Alpha".data, (5 : ℚ))], ∃ k rest, 1 ≤ k ∧ rest <+: format_usd p.2 ∧
        _truncate_left p.1 (min 34 (effCol 40 80 [("Alpha".data, (5 : ℚ))] - 1)) ++
            List.replicate k ' ' ++ rest ∈
          (format_section_block_lines "By".data [("Alpha".data, (5 : ℚ))] 5 40 80
            none false none).tail) :=
  c4_section_block_amended "By".data [("Alpha".data, 5)] 5 40 80 false none (by decide)
